import Mathlib

/-!
Verification of `src/Prepare_Bible.py`, a one-shot batch transform that reads a
JSON document of scripture verses (either a flat list of records or a
book → chapter → verse nested mapping), flattens it to a canonical
`(book, chapter, verse, text)` table, coerces chapter/verse to nullable
integers, sorts by `(book, chapter, verse)` with nulls last, assigns a
sequential `id`, and writes a CSV.

The embedding below translates the program into executable Lean definitions:

* `Json` models a value produced by `json.load` (objects are association
  lists with distinct keys, since `json.load` collapses duplicate keys;
  floats do not occur in the inputs the claims are about and are not
  modelled).
* `DataFrame` models the small fragment of a pandas DataFrame the script
  uses: an ordered list of column labels plus rows of cells, a cell being
  `Option Json` with `none` playing the role of `NaN`/missing.
* Errors are represented by `PrepError`; every Python exception the script
  can raise is mapped to one constructor (`ValueError` in
  `flatten_from_list` → `missingRequiredFields`, `ValueError` from `int()`
  in `flatten_from_nested` → `coercionFailure`, the empty-walk `ValueError`
  → `emptyFlattenResult`, `TypeError` for an unsupported root →
  `unsupportedShape`, the `astype("Int64")` failure on a non-integral
  numeric → `castFailure`, and residual pandas library errors on
  degenerate frames → `pandasTypeError`).
-/

/-- A parsed JSON value as produced by Python's `json.load`.  Object entries
keep their insertion order; keys are distinct because `json.load` collapses
duplicates.  JSON numbers in the inputs under consideration are integers, so
no float constructor is modelled. -/
inductive Json where
  | str : String → Json
  | int : Int → Json
  | bool : Bool → Json
  | null : Json
  | arr : List Json → Json
  | obj : List (String × Json) → Json
deriving Repr

mutual

/-- Decidable equality on `Json` (the derive handler does not support the
nested occurrence of `Json` under `List`, so it is spelled out). -/
def Json.decEq : (a b : Json) → Decidable (a = b)
  | .str a, .str b =>
    match String.decEq a b with
    | isTrue h => isTrue (h ▸ rfl)
    | isFalse h => isFalse (fun he => h (by cases he; rfl))
  | .int a, .int b =>
    match Int.decEq a b with
    | isTrue h => isTrue (h ▸ rfl)
    | isFalse h => isFalse (fun he => h (by cases he; rfl))
  | .bool a, .bool b =>
    match Bool.decEq a b with
    | isTrue h => isTrue (h ▸ rfl)
    | isFalse h => isFalse (fun he => h (by cases he; rfl))
  | .null, .null => isTrue rfl
  | .arr a, .arr b =>
    match Json.decEqList a b with
    | isTrue h => isTrue (h ▸ rfl)
    | isFalse h => isFalse (fun he => h (by cases he; rfl))
  | .obj a, .obj b =>
    match Json.decEqObj a b with
    | isTrue h => isTrue (h ▸ rfl)
    | isFalse h => isFalse (fun he => h (by cases he; rfl))
  | .str _, .int _ => isFalse (fun h => Json.noConfusion h)
  | .str _, .bool _ => isFalse (fun h => Json.noConfusion h)
  | .str _, .null => isFalse (fun h => Json.noConfusion h)
  | .str _, .arr _ => isFalse (fun h => Json.noConfusion h)
  | .str _, .obj _ => isFalse (fun h => Json.noConfusion h)
  | .int _, .str _ => isFalse (fun h => Json.noConfusion h)
  | .int _, .bool _ => isFalse (fun h => Json.noConfusion h)
  | .int _, .null => isFalse (fun h => Json.noConfusion h)
  | .int _, .arr _ => isFalse (fun h => Json.noConfusion h)
  | .int _, .obj _ => isFalse (fun h => Json.noConfusion h)
  | .bool _, .str _ => isFalse (fun h => Json.noConfusion h)
  | .bool _, .int _ => isFalse (fun h => Json.noConfusion h)
  | .bool _, .null => isFalse (fun h => Json.noConfusion h)
  | .bool _, .arr _ => isFalse (fun h => Json.noConfusion h)
  | .bool _, .obj _ => isFalse (fun h => Json.noConfusion h)
  | .null, .str _ => isFalse (fun h => Json.noConfusion h)
  | .null, .int _ => isFalse (fun h => Json.noConfusion h)
  | .null, .bool _ => isFalse (fun h => Json.noConfusion h)
  | .null, .arr _ => isFalse (fun h => Json.noConfusion h)
  | .null, .obj _ => isFalse (fun h => Json.noConfusion h)
  | .arr _, .str _ => isFalse (fun h => Json.noConfusion h)
  | .arr _, .int _ => isFalse (fun h => Json.noConfusion h)
  | .arr _, .bool _ => isFalse (fun h => Json.noConfusion h)
  | .arr _, .null => isFalse (fun h => Json.noConfusion h)
  | .arr _, .obj _ => isFalse (fun h => Json.noConfusion h)
  | .obj _, .str _ => isFalse (fun h => Json.noConfusion h)
  | .obj _, .int _ => isFalse (fun h => Json.noConfusion h)
  | .obj _, .bool _ => isFalse (fun h => Json.noConfusion h)
  | .obj _, .null => isFalse (fun h => Json.noConfusion h)
  | .obj _, .arr _ => isFalse (fun h => Json.noConfusion h)

/-- Decidable equality on lists of `Json`. -/
def Json.decEqList : (a b : List Json) → Decidable (a = b)
  | [], [] => isTrue rfl
  | [], _ :: _ => isFalse (fun h => List.noConfusion h)
  | _ :: _, [] => isFalse (fun h => List.noConfusion h)
  | x :: xs, y :: ys =>
    match Json.decEq x y with
    | isTrue h1 =>
      match Json.decEqList xs ys with
      | isTrue h2 => isTrue (h1 ▸ h2 ▸ rfl)
      | isFalse h2 => isFalse (fun he => h2 (by cases he; rfl))
    | isFalse h1 => isFalse (fun he => h1 (by cases he; rfl))

/-- Decidable equality on lists of `(String, Json)` entries. -/
def Json.decEqObj : (a b : List (String × Json)) → Decidable (a = b)
  | [], [] => isTrue rfl
  | [], _ :: _ => isFalse (fun h => List.noConfusion h)
  | _ :: _, [] => isFalse (fun h => List.noConfusion h)
  | (k, v) :: xs, (l, w) :: ys =>
    match String.decEq k l with
    | isTrue hk =>
      match Json.decEq v w with
      | isTrue hv =>
        match Json.decEqObj xs ys with
        | isTrue ht => isTrue (hk ▸ hv ▸ ht ▸ rfl)
        | isFalse ht => isFalse (fun he => ht (by cases he; rfl))
      | isFalse hv => isFalse (fun he => hv (by cases he; rfl))
    | isFalse hk => isFalse (fun he => hk (by cases he; rfl))

end

instance : DecidableEq Json := Json.decEq

/-- Python's `f"{type(x)}"` rendering for each JSON runtime type, as used by
the `TypeError` message in `main`. -/
def pyTypeName : Json → String
  | .str _ => "<class 'str'>"
  | .int _ => "<class 'int'>"
  | .bool _ => "<class 'bool'>"
  | .null => "<class 'NoneType'>"
  | .arr _ => "<class 'list'>"
  | .obj _ => "<class 'dict'>"

/-- Strip leading and trailing whitespace from a character list (the
character-level counterpart of Python's `str.strip` as `int()`/`float()`
apply it). -/
def trimChars (l : List Char) : List Char :=
  ((l.dropWhile Char.isWhitespace).reverse.dropWhile Char.isWhitespace).reverse

/-- The value of a decimal digit, `none` for any other character. -/
def digitVal : Char → Option Nat :=
  fun c => if c.isDigit then some (c.toNat - '0'.toNat) else none

/-- Accumulate a base-10 numeral; fails on the first non-digit. -/
def digitsToNatAux : List Char → Nat → Option Nat
  | [], acc => some acc
  | c :: rest, acc =>
    match digitVal c with
    | some d => digitsToNatAux rest (acc * 10 + d)
    | none => none

/-- Parse a non-empty all-digit character list as a natural number. -/
def digitsToNat : List Char → Option Nat
  | [] => none
  | l => digitsToNatAux l 0

/-- Python `int(s)` on a string: optional surrounding whitespace, an optional
sign, then base-10 digits; anything else raises `ValueError` (modelled as
`none`).  (CPython also strips Unicode whitespace and allows digit-group
underscores; those corners are irrelevant to the inputs considered.) -/
def pyIntOfString (s : String) : Option Int :=
  match trimChars s.data with
  | '-' :: rest => (digitsToNat rest).map (fun n => -(n : Int))
  | '+' :: rest => (digitsToNat rest).map (fun n => (n : Int))
  | t => (digitsToNat t).map (fun n => (n : Int))

/-- Result of parsing a string as a number, the way
`pd.to_numeric(..., errors="coerce")` followed by `astype("Int64")` sees it:
an integral value, a numeric but non-integral value (which makes the later
`astype("Int64")` raise), or no number at all (which `errors="coerce"` turns
into `NaN`). -/
inductive NumParse where
  | int : Int → NumParse
  | nonIntegral : NumParse
  | fail : NumParse
deriving DecidableEq, Repr

/-- Split a character list at its first decimal point, if any.  (Exponent
notation and `inf`/`nan` spellings are not modelled by the numeric parser
below; no claim involves them.) -/
def breakDot : List Char → List Char × Option (List Char)
  | [] => ([], none)
  | '.' :: rest => ([], some rest)
  | c :: rest =>
    let p := breakDot rest
    (c :: p.1, p.2)

/-- Parse a string as a decimal number the way the lenient numeric path sees
it: optional whitespace and sign, then `digits`, `digits.digits`, `digits.`
or `.digits`.  A fractional part that is all zeros still denotes an integral
value. -/
def pyNumParse (s : String) : NumParse :=
  let t := trimChars s.data
  let neg : Bool := match t with | '-' :: _ => true | _ => false
  let u := match t with
    | '-' :: r => r
    | '+' :: r => r
    | other => other
  let sign : Int → Int := fun n => if neg then -n else n
  match breakDot u with
  | (d, none) =>
    match digitsToNat d with
    | some n => .int (sign n)
    | none => .fail
  | (d, some f) =>
    if f.contains '.' then .fail
    else if d.isEmpty && f.isEmpty then .fail
    else if (d.isEmpty || (digitsToNat d).isSome) &&
        (f.isEmpty || (digitsToNat f).isSome) then
      if f.all (fun ch => ch == '0') then .int (sign ((digitsToNat d).getD 0))
      else .nonIntegral
    else .fail

mutual

/-- Python `repr` of a parsed JSON value (simplified: string quoting always
uses single quotes without escape handling; no claim input contains quotes
or backslashes). -/
def pyRepr : Json → String
  | .str s => "'" ++ s ++ "'"
  | .int n => toString n
  | .bool b => if b then "True" else "False"
  | .null => "None"
  | .arr xs => "[" ++ pyReprList xs ++ "]"
  | .obj kvs => "\x7b" ++ pyReprObj kvs ++ "\x7d"

/-- Comma-separated `repr` of list elements. -/
def pyReprList : List Json → String
  | [] => ""
  | [x] => pyRepr x
  | x :: rest => pyRepr x ++ ", " ++ pyReprList rest

/-- Comma-separated `repr` of dict entries. -/
def pyReprObj : List (String × Json) → String
  | [] => ""
  | [(k, v)] => "'" ++ k ++ "': " ++ pyRepr v
  | (k, v) :: rest => "'" ++ k ++ "': " ++ pyRepr v ++ ", " ++ pyReprObj rest

end

/-- Python `str(x)` of a parsed JSON value: a string is returned as-is, all
other values render as their `repr`-style text. -/
def pyStr : Json → String
  | .str s => s
  | j => pyRepr j

/-- Errors the script can raise (each models one Python exception site). -/
inductive PrepError where
  | unsupportedShape : String → PrepError
  | missingRequiredFields : List String → List String → PrepError
  | emptyFlattenResult : PrepError
  | coercionFailure : PrepError
  | castFailure : PrepError
  | pandasTypeError : PrepError
deriving DecidableEq, Repr

/-- One element of a list-shaped input: a JSON object as an association list. -/
abbrev Record := List (String × Json)

/-- The keys of a record, in order. -/
def recordKeys (r : Record) : List String := r.map Prod.fst

/-- One pandas cell; `none` plays the role of `NaN`/missing. -/
abbrev Cell := Option Json

/-- The fragment of a pandas DataFrame the script uses: ordered column labels
plus rows of cells. -/
structure DataFrame where
  columns : List String
  rows : List (List Cell)
deriving DecidableEq, Repr

/-- Column inference of `pd.DataFrame(list-of-dicts)`: keys in order of first
appearance across the records, accumulated left to right. -/
def dfColumnsAux : List Record → List String → List String
  | [], acc => acc
  | r :: rest, acc =>
    dfColumnsAux rest (acc ++ (recordKeys r).filter (fun k => !acc.contains k))

/-- Columns of `pd.DataFrame(data)` for a list of dicts. -/
def dfColumns (data : List Record) : List String := dfColumnsAux data []

/-- A record's value at a column label (`NaN`, i.e. `none`, when the record
has no such key; keys of a parsed dict are distinct so the first match is the
value). -/
def dfCell (r : Record) (c : String) : Cell :=
  (r.find? (fun kv => kv.1 == c)).map Prod.snd

/-- The model of `pd.DataFrame(data)` on a list of dicts. -/
def mkDataFrame (data : List Record) : DataFrame :=
  ⟨dfColumns data, data.map (fun r => (dfColumns data).map (dfCell r))⟩

/-- The `rename_map` literal of `flatten_from_list`, in source order. -/
def rename_map : List (String × String) :=
  [("Book", "book"), ("book_name", "book"), ("bookName", "book"),
   ("Chapter", "chapter"), ("chapterNumber", "chapter"),
   ("Verse", "verse"), ("verseNumber", "verse"),
   ("Text", "text"), ("verseText", "text"), ("content", "text")]

/-- The effect of `df.rename(columns=rename_map)` on a single column label:
a recognized alias maps to its canonical name, anything else is unchanged. -/
def applyRename (c : String) : String := (rename_map.lookup c).getD c

/-- The required canonical columns, in the fixed output order. -/
def requiredList : List String := ["book", "chapter", "verse", "text"]

/-- Columns of the frame after the rename step. -/
def renamedColumns (data : List Record) : List String :=
  (dfColumns data).map applyRename

/-- The `missing` set of `flatten_from_list` (Python iterates a set here, so
only its contents are specified; the model lists the canonical order). -/
def missingFields (data : List Record) : List String :=
  requiredList.filter (fun f => !(renamedColumns data).contains f)

/-- One row of `df[labels]`: for each requested label, all cells whose column
matches it (pandas selects every duplicate occurrence). -/
def selectRow (columns : List String) (row : List Cell) (labels : List String) :
    List Cell :=
  labels.flatMap (fun l =>
    (columns.zip row).filterMap (fun p => if p.1 == l then some p.2 else none))

/-- The model of `df[labels]` column selection. -/
def selectColumns (df : DataFrame) (labels : List String) : DataFrame :=
  ⟨labels.flatMap (fun l => df.columns.filter (fun c => c == l)),
   df.rows.map (fun row => selectRow df.columns row labels)⟩

/-- The list-variant flattener `flatten_from_list`: build the frame, rename
recognized alias columns, fail when a canonical column is still missing
(reporting the missing fields and the columns actually seen), otherwise keep
the four canonical columns in fixed order. -/
def flatten_from_list (data : List Record) : Except PrepError DataFrame :=
  if missingFields data ≠ [] then
    .error (.missingRequiredFields (missingFields data) (renamedColumns data))
  else
    .ok (selectColumns ⟨renamedColumns data, (mkDataFrame data).rows⟩ requiredList)

/-- A leaf reached by the nested walk: book name, chapter label, verse label
and leaf value. -/
abbrev Leaf := String × String × String × Json

/-- The leaves visited by `flatten_from_nested`'s triple loop: book entries
whose value is not a dict are skipped, chapter entries whose value is not a
dict are skipped, and every remaining verse entry is one leaf, in iteration
order. -/
def nestedLeafRecords (data : List (String × Json)) : List Leaf :=
  data.flatMap (fun bc =>
    match bc.2 with
    | .obj chapters =>
      chapters.flatMap (fun cv =>
        match cv.2 with
        | .obj verses => verses.map (fun vt => (bc.1, cv.1, vt.1, vt.2))
        | _ => [])
    | _ => [])

/-- A fully coerced nested record, as appended by the inner loop body. -/
structure NRec where
  book : String
  chapter : Int
  verse : Int
  text : String
deriving DecidableEq, Repr

/-- The loop body of `flatten_from_nested`: `int(chapter)` and `int(verse)`
raise `ValueError` on an unparseable label; `str(text)` always succeeds. -/
def coerceLeaf (q : Leaf) : Except PrepError NRec :=
  match pyIntOfString q.2.1, pyIntOfString q.2.2.1 with
  | some c, some v => .ok ⟨q.1, c, v, pyStr q.2.2.2⟩
  | _, _ => .error .coercionFailure

/-- Sequential effectful map over a list, stopping at the first error (the
loop semantics of the script). -/
def exceptMapM {α β : Type} (f : α → Except PrepError β) :
    List α → Except PrepError (List β)
  | [] => .ok []
  | x :: rest =>
    match f x with
    | .error e => .error e
    | .ok y =>
      match exceptMapM f rest with
      | .error e => .error e
      | .ok ys => .ok (y :: ys)

/-- The records accumulated by `flatten_from_nested`'s walk, or the first
coercion error raised while walking. -/
def nestedRecords (data : List (String × Json)) : Except PrepError (List NRec) :=
  exceptMapM coerceLeaf (nestedLeafRecords data)

/-- The value a leaf coerces to when both labels parse. -/
def mkNRec (q : Leaf) : NRec :=
  ⟨q.1, (pyIntOfString q.2.1).getD 0, (pyIntOfString q.2.2.1).getD 0,
   pyStr q.2.2.2⟩

/-- Row of `pd.DataFrame(records)` for one nested record: the dict keys are
`book, chapter, verse, text` in insertion order. -/
def nrecRow (r : NRec) : List Cell :=
  [some (.str r.book), some (.int r.chapter), some (.int r.verse),
   some (.str r.text)]

/-- The nested-variant flattener `flatten_from_nested`: walk the mapping,
raise on an unparseable chapter/verse label, raise `EmptyFlattenResult` when
the walk produced no records, otherwise build the four-column frame. -/
def flatten_from_nested (data : List (String × Json)) :
    Except PrepError DataFrame :=
  match nestedRecords data with
  | .error e => .error e
  | .ok rs =>
    if rs.isEmpty then .error .emptyFlattenResult
    else .ok ⟨requiredList, rs.map nrecRow⟩

/-- Cell-level model of `pd.to_numeric(col, errors="coerce").astype("Int64")`:
integers pass through, booleans convert to 0/1, strings parse as decimal
numbers (unparseable → `NaN`, numeric but non-integral → the `astype` raises),
and `None`/containers coerce to `NaN`. -/
def coerceCell : Cell → Except PrepError (Option Int)
  | none => .ok none
  | some (.int n) => .ok (some n)
  | some (.bool b) => .ok (some (if b then 1 else 0))
  | some .null => .ok none
  | some (.str s) =>
    match pyNumParse s with
    | .int n => .ok (some n)
    | .nonIntegral => .error .castFailure
    | .fail => .ok none
  | some (.arr _) => .ok none
  | some (.obj _) => .ok none

/-- The coerced cell stored back into the frame (an `Int64` column holds
integers or the missing marker). -/
def coerceCellJ (c : Cell) : Except PrepError Cell :=
  match coerceCell c with
  | .error e => .error e
  | .ok o => .ok (o.map Json.int)

/-- Numeric coercion applied to the cells of the `chapter` and `verse`
columns of one row, other columns untouched. -/
def coerceRowCells (columns : List String) (row : List Cell) :
    Except PrepError (List Cell) :=
  exceptMapM
    (fun p => if p.1 == "chapter" || p.1 == "verse" then coerceCellJ p.2 else .ok p.2)
    (columns.zip row)

/-- A canonical four-column row. -/
structure Row4 where
  book : Cell
  chapter : Cell
  verse : Cell
  text : Cell
deriving DecidableEq, Repr

/-- View a four-cell row as a `Row4` (the pipeline only reaches this point
with well-formed four-column frames). -/
def toRow4 : List Cell → Except PrepError Row4
  | [b, c, v, t] => .ok ⟨b, c, v, t⟩
  | _ => .error .pandasTypeError

/-- A book cell the sort can compare: missing, or a string (a frame whose
book column mixes strings with other runtime types makes the library's sort
raise, which the model folds into `pandasTypeError`). -/
def bookCellOkB : Cell → Bool
  | none => true
  | some (.str _) => true
  | _ => false

/-- String view of a book cell (`none` for the missing marker). -/
def bookOf : Cell → Option String
  | some (.str s) => some s
  | _ => none

/-- Integer view of a coerced cell (`none` for the missing marker). -/
def cellToInt : Cell → Option Int
  | some (.int n) => some n
  | _ => none

/-- Lexicographic strict comparison of character lists by code point, the
comparison Python applies to strings. -/
def charListLt : List Char → List Char → Bool
  | [], [] => false
  | [], _ :: _ => true
  | _ :: _, [] => false
  | a :: as, b :: bs =>
    if a < b then true else if b < a then false else charListLt as bs

/-- Lexicographic strict comparison of strings by code point. -/
def strLtB (a b : String) : Bool := charListLt a.data b.data

/-- Strict comparison on optional strings with the missing marker sorting
after every real value (`na_position="last"`). -/
def ltOptStr : Option String → Option String → Bool
  | some a, some b => strLtB a b
  | some _, none => true
  | none, _ => false

/-- Strict comparison on optional integers with the missing marker sorting
after every real value. -/
def ltOptInt : Option Int → Option Int → Bool
  | some a, some b => decide (a < b)
  | some _, none => true
  | none, _ => false

/-- The sort order of `df.sort_values(["book", "chapter", "verse"])`:
lexicographic on (book text, chapter, verse), missing values last at every
level. -/
def rowLeB (a b : Row4) : Bool :=
  if ltOptStr (bookOf a.book) (bookOf b.book) then true
  else if ltOptStr (bookOf b.book) (bookOf a.book) then false
  else if ltOptInt (cellToInt a.chapter) (cellToInt b.chapter) then true
  else if ltOptInt (cellToInt b.chapter) (cellToInt a.chapter) then false
  else !ltOptInt (cellToInt b.verse) (cellToInt a.verse)

/-- The sort order as a decidable relation. -/
def rowLeP (a b : Row4) : Prop := rowLeB a b = true

instance : DecidableRel rowLeP :=
  fun a b => inferInstanceAs (Decidable (rowLeB a b = true))

/-- One row of the final table: sequential `id` first, then the four
canonical fields with chapter/verse as nullable integers. -/
structure OutRow where
  id : Nat
  book : Cell
  chapter : Option Int
  verse : Option Int
  text : Cell
deriving DecidableEq, Repr

/-- Attach `id = 0..N-1` in final sort position (`reset_index` followed by
`insert(0, "id", range(len(df)))`). -/
def outOfSorted (l : List Row4) : List OutRow :=
  l.enum.map (fun p =>
    ⟨p.1, p.2.book, cellToInt p.2.chapter, cellToInt p.2.verse, p.2.text⟩)

/-- The tail of `main` after flattening: coerce the `chapter` and `verse`
columns to nullable integers, sort by `(book, chapter, verse)` with missing
values last, and assign sequential ids.  Library preconditions that the
script relies on implicitly (unique `chapter`/`verse` labels for the column
assignment, the canonical four-column layout, and a book column the sort can
compare) raise library errors, folded into `pandasTypeError`. -/
def normalizeDF (df : DataFrame) : Except PrepError (List OutRow) :=
  if df.columns.count "chapter" = 1 ∧ df.columns.count "verse" = 1 then
    match exceptMapM (coerceRowCells df.columns) df.rows with
    | .error e => .error e
    | .ok rows' =>
      if df.columns = requiredList then
        match exceptMapM toRow4 rows' with
        | .error e => .error e
        | .ok r4s =>
          if r4s.all (fun r => bookCellOkB r.book) then
            .ok (outOfSorted (List.insertionSort rowLeP r4s))
          else .error .pandasTypeError
      else .error .pandasTypeError
  else .error .pandasTypeError

/-- Interpret the elements of a list-shaped root as records; a non-mapping
element falls outside the list flattener's documented input shape and leads
to library-specific frame construction, folded into `pandasTypeError`. -/
def asRecords : List Json → Option (List Record)
  | [] => some []
  | .obj r :: rest => (asRecords rest).map (fun rs => r :: rs)
  | _ => none

/-- The list branch of `main`: list flattener then normalizer. -/
def listPath (xs : List Json) : Except PrepError (List OutRow) :=
  match asRecords xs with
  | some recs =>
    match flatten_from_list recs with
    | .error e => .error e
    | .ok df => normalizeDF df
  | none => .error .pandasTypeError

/-- The nested branch of `main`: nested flattener then normalizer. -/
def nestedPath (kvs : List (String × Json)) : Except PrepError (List OutRow) :=
  match flatten_from_nested kvs with
  | .error e => .error e
  | .ok df => normalizeDF df

/-- The shape dispatch of `main`: a list root goes to the list flattener, a
dict root to the nested flattener, anything else raises `TypeError` naming
the runtime type; the surviving branch continues into the normalizer. -/
def mainTransform : Json → Except PrepError (List OutRow)
  | .arr xs => listPath xs
  | .obj kvs => nestedPath kvs
  | j => .error (.unsupportedShape (pyTypeName j))

/-- Whether the run reaches the write stage: `to_csv` runs only when every
earlier stage succeeded, so an output file exists exactly when the transform
returns a table. -/
def outputFileWritten (j : Json) : Bool :=
  match mainTransform j with
  | .ok _ => true
  | .error _ => false

/-- Decidable equality on `Except`, needed to evaluate pipeline results. -/
instance {e a : Type} [DecidableEq e] [DecidableEq a] : DecidableEq (Except e a)
  | .ok x, .ok y =>
    match decEq x y with
    | isTrue h => isTrue (h ▸ rfl)
    | isFalse h => isFalse (fun he => h (by cases he; rfl))
  | .error x, .error y =>
    match decEq x y with
    | isTrue h => isTrue (h ▸ rfl)
    | isFalse h => isFalse (fun he => h (by cases he; rfl))
  | .ok _, .error _ => isFalse (fun h => Except.noConfusion h)
  | .error _, .ok _ => isFalse (fun h => Except.noConfusion h)

/-- Total (error-ignoring) view of the numeric coercion of one cell, used to
describe the normalizer's successful runs. -/
def coerceCellD (c : Cell) : Option Int :=
  match coerceCell c with
  | .ok o => o
  | .error _ => none

/-- Total view of the coercion applied to one canonical row. -/
def coerceRow4D (r : Row4) : Row4 :=
  ⟨r.book, (coerceCellD r.chapter).map Json.int,
   (coerceCellD r.verse).map Json.int, r.text⟩

/-- Canonical frame built from a list of canonical rows (what either
flattener hands to the normalizer in the non-degenerate cases). -/
def dfOfRows (rows : List Row4) : DataFrame :=
  ⟨requiredList, rows.map (fun r => [r.book, r.chapter, r.verse, r.text])⟩

/-- Closed form of a successful normalizer run: coerce every row, sort, and
attach ids. -/
def normalizeTotal (rows : List Row4) : List OutRow :=
  outOfSorted (List.insertionSort rowLeP (rows.map coerceRow4D))

/-- Spec-side order: strict comparison of nullable integers, null sorting
after all real values (ascending numeric comparison otherwise). -/
def specNullLastLtInt : Option Int → Option Int → Prop
  | some a, some b => a < b
  | some _, none => True
  | none, _ => False

/-- Spec-side reflexive closure of `specNullLastLtInt`. -/
def specNullLastLeInt (a b : Option Int) : Prop :=
  specNullLastLtInt a b ∨ a = b

/-- Spec-side order: strict lexical comparison of nullable book texts, null
sorting after all real values. -/
def specNullLastLtStr : Option String → Option String → Prop
  | some a, some b => a < b
  | some _, none => True
  | none, _ => False

/-- Spec-side total order on output rows, as the claim words it: book
ascending by lexical text comparison, then chapter ascending, then verse
ascending, numeric comparison with null chapter/verse after all real
values. -/
def specSortLe (a b : OutRow) : Prop :=
  specNullLastLtStr (bookOf a.book) (bookOf b.book)
  ∨ (bookOf a.book = bookOf b.book ∧
     (specNullLastLtInt a.chapter b.chapter
      ∨ (a.chapter = b.chapter ∧ specNullLastLeInt a.verse b.verse)))

/-- Spec-side statement of the chapter/verse lower bound: every non-null
chapter or verse in any output table is at least 1. -/
def specChapterVerseLowerBound : Prop :=
  ∀ j rows, mainTransform j = .ok rows →
    ∀ r ∈ rows, (∀ n : Int, r.chapter = some n → 1 ≤ n) ∧
      (∀ n : Int, r.verse = some n → 1 ≤ n)

theorem exceptMapM_ok_of_forall {α β : Type} (f : α → Except PrepError β)
    (g : α → β) :
    ∀ l : List α, (∀ x ∈ l, f x = .ok (g x)) →
      exceptMapM f l = .ok (l.map g) := by
  intro l
  induction l with
  | nil => intro _; rfl
  | cons x rest ih =>
    intro h
    have hx := h x (List.mem_cons_self x rest)
    have hrest := ih (fun y hy => h y (List.mem_cons_of_mem x hy))
    simp [exceptMapM, hx, hrest]

theorem exceptMapM_error_of_exists {α β : Type} (f : α → Except PrepError β)
    (e : PrepError) :
    ∀ l : List α, (∀ x ∈ l, f x = .error e ∨ ∃ y, f x = .ok y) →
      (∃ x ∈ l, f x = .error e) → exceptMapM f l = .error e := by
  intro l
  induction l with
  | nil => intro _ hex; exact absurd hex (by simp)
  | cons x rest ih =>
    intro hall hex
    rcases hall x (List.mem_cons_self x rest) with hx | ⟨y, hy⟩
    · simp [exceptMapM, hx]
    · have hrest : ∃ z ∈ rest, f z = .error e := by
        rcases hex with ⟨z, hz, hze⟩
        rcases List.mem_cons.mp hz with rfl | hz'
        · rw [hy] at hze; exact absurd hze (by simp)
        · exact ⟨z, hz', hze⟩
      have := ih (fun y hy => hall y (List.mem_cons_of_mem x hy)) hrest
      simp [exceptMapM, hy, this]

theorem exceptMapM_ok_inv {α β : Type} (f : α → Except PrepError β) (g : α → β)
    (hdet : ∀ x y, f x = .ok y → y = g x) :
    ∀ (l : List α) (ys : List β), exceptMapM f l = .ok ys → ys = l.map g := by
  intro l
  induction l with
  | nil => intro ys h; simpa [exceptMapM] using h.symm
  | cons x rest ih =>
    intro ys h
    unfold exceptMapM at h
    cases hx : f x with
    | error e => rw [hx] at h; exact absurd h (by simp)
    | ok y =>
      rw [hx] at h
      cases hrest : exceptMapM f rest with
      | error e => rw [hrest] at h; exact absurd h (by simp)
      | ok zs =>
        rw [hrest] at h
        have hy := hdet x y hx
        have hzs := ih zs hrest
        simp only [Except.ok.injEq] at h
        rw [← h, hy, hzs, List.map]

theorem coerceLeaf_spec (q : Leaf) :
    coerceLeaf q =
      if (pyIntOfString q.2.1).isSome ∧ (pyIntOfString q.2.2.1).isSome then
        .ok (mkNRec q)
      else .error .coercionFailure := by
  unfold coerceLeaf mkNRec
  cases hc : pyIntOfString q.2.1 with
  | none => simp [hc]
  | some c =>
    cases hv : pyIntOfString q.2.2.1 with
    | none => simp [hc, hv]
    | some v => simp [hc, hv]

/-- C1: for every nested-mapping input, the nested flattener emits exactly one
record per leaf reachable through a mapping-valued book entry and a
mapping-valued chapter entry (in walk order, coerced by `mkNRec`), and it
silently skips, without error, any book-level or chapter-level entry whose
value is not a mapping.  In particular (see the witness) the input
`{"Genesis": {"1": {"1": "a", "2": "b"}}}` yields exactly the records
`(Genesis, 1, 1, "a")` and `(Genesis, 1, 2, "b")`. -/
theorem C1_nested_flatten_completeness (data : List (String × Json))
    (hp : ∀ q ∈ nestedLeafRecords data,
      (pyIntOfString q.2.1).isSome ∧ (pyIntOfString q.2.2.1).isSome)
    (hne : nestedLeafRecords data ≠ []) :
    nestedRecords data = .ok ((nestedLeafRecords data).map mkNRec)
    ∧ flatten_from_nested data =
        .ok ⟨requiredList, ((nestedLeafRecords data).map mkNRec).map nrecRow⟩
    ∧ (∀ (b : String) (j : Json), (∀ kvs, j ≠ .obj kvs) →
        flatten_from_nested ((b, j) :: data) = flatten_from_nested data)
    ∧ (∀ (b c : String) (j : Json) (cs : List (String × Json))
        (rest : List (String × Json)), (∀ kvs, j ≠ .obj kvs) →
        flatten_from_nested ((b, Json.obj ((c, j) :: cs)) :: rest) =
          flatten_from_nested ((b, Json.obj cs) :: rest)) := by
  have hrec : nestedRecords data = .ok ((nestedLeafRecords data).map mkNRec) := by
    apply exceptMapM_ok_of_forall
    intro q hq
    rw [coerceLeaf_spec q, if_pos (hp q hq)]
  refine ⟨hrec, ?_, ?_, ?_⟩
  · unfold flatten_from_nested
    rw [hrec]
    have : ((nestedLeafRecords data).map mkNRec).isEmpty = false := by
      cases hd : nestedLeafRecords data with
      | nil => exact absurd hd hne
      | cons a l => simp [hd]
    simp [this]
  · intro b j hj
    have hleaves : nestedLeafRecords ((b, j) :: data) = nestedLeafRecords data := by
      unfold nestedLeafRecords
      cases j with
      | obj kvs => exact absurd rfl (hj kvs)
      | str s => simp
      | int n => simp
      | bool v => simp
      | null => simp
      | arr xs => simp
    unfold flatten_from_nested nestedRecords
    rw [hleaves]
  · intro b c j cs rest hj
    have hleaves : nestedLeafRecords ((b, Json.obj ((c, j) :: cs)) :: rest) =
        nestedLeafRecords ((b, Json.obj cs) :: rest) := by
      unfold nestedLeafRecords
      cases j with
      | obj kvs => exact absurd rfl (hj kvs)
      | str s => simp
      | int n => simp
      | bool v => simp
      | null => simp
      | arr xs => simp
    unfold flatten_from_nested nestedRecords
    rw [hleaves]

/-- Witness for C1 at the spec's concrete example input
`{"Genesis": {"1": {"1": "a", "2": "b"}}}`. -/
theorem C1_nested_flatten_completeness_witness :
    nestedRecords
        [("Genesis", Json.obj [("1", Json.obj [("1", Json.str "a"), ("2", Json.str "b")])])] =
      .ok [⟨"Genesis", 1, 1, "a"⟩, ⟨"Genesis", 1, 2, "b"⟩] := by
  have h := C1_nested_flatten_completeness
    [("Genesis", Json.obj [("1", Json.obj [("1", Json.str "a"), ("2", Json.str "b")])])]
    (by decide) (by decide)
  exact h.1.trans (by decide)

/-- C6: in the nested flattener, chapter and verse labels of every reached
leaf are coerced to base-10 integers — a leaf whose chapter or verse label
does not parse raises a fatal `CoercionFailure` instead of being skipped —
and the text value always becomes a string via `pyStr`, whatever its original
type: the loop body either coerces a leaf to `mkNRec` (with integer
chapter/verse and `pyStr` text) or raises, and any successfully returned
record list is exactly the coercion of the walked leaves. -/
theorem C6_nested_label_coercion (data : List (String × Json)) :
    ((∃ q ∈ nestedLeafRecords data,
        (pyIntOfString q.2.1).isNone ∨ (pyIntOfString q.2.2.1).isNone) →
      nestedRecords data = .error .coercionFailure
      ∧ flatten_from_nested data = .error .coercionFailure)
    ∧ (∀ rs, nestedRecords data = .ok rs →
        rs = (nestedLeafRecords data).map mkNRec)
    ∧ (∀ q : Leaf,
        coerceLeaf q =
          if (pyIntOfString q.2.1).isSome ∧ (pyIntOfString q.2.2.1).isSome then
            .ok (mkNRec q)
          else .error .coercionFailure) := by
  refine ⟨?_, ?_, coerceLeaf_spec⟩
  · intro hex
    have herr : nestedRecords data = .error .coercionFailure := by
      apply exceptMapM_error_of_exists
      · intro q _
        rw [coerceLeaf_spec q]
        by_cases h : (pyIntOfString q.2.1).isSome ∧ (pyIntOfString q.2.2.1).isSome
        · exact Or.inr ⟨mkNRec q, by rw [if_pos h]⟩
        · exact Or.inl (by rw [if_neg h])
      · rcases hex with ⟨q, hq, hbad⟩
        refine ⟨q, hq, ?_⟩
        rw [coerceLeaf_spec q, if_neg ?_]
        rcases hbad with h | h
        · intro hc; rw [Option.isNone_iff_eq_none] at h
          rw [h] at hc; exact absurd hc.1 (by simp)
        · intro hc; rw [Option.isNone_iff_eq_none] at h
          rw [h] at hc; exact absurd hc.2 (by simp)
    refine ⟨herr, ?_⟩
    unfold flatten_from_nested
    rw [herr]
  · intro rs hok
    exact exceptMapM_ok_inv coerceLeaf mkNRec
      (fun q y hy => by
        rw [coerceLeaf_spec q] at hy
        by_cases h : (pyIntOfString q.2.1).isSome ∧ (pyIntOfString q.2.2.1).isSome
        · rw [if_pos h] at hy; exact (Except.ok.injEq _ _ ▸ hy).symm ▸ rfl
        · rw [if_neg h] at hy; exact absurd hy (by simp))
      (nestedLeafRecords data) rs hok

/-- Witness for C6: a chapter label `"x"` that is not a base-10 integer makes
the whole nested flatten fail with the coercion error. -/
theorem C6_nested_label_coercion_witness :
    nestedRecords [("Genesis", Json.obj [("x", Json.obj [("1", Json.str "a")])])] =
      .error .coercionFailure
    ∧ flatten_from_nested [("Genesis", Json.obj [("x", Json.obj [("1", Json.str "a")])])] =
      .error .coercionFailure :=
  (C6_nested_label_coercion
    [("Genesis", Json.obj [("x", Json.obj [("1", Json.str "a")])])]).1
    (by decide)

/-- C7: a nested-shaped input whose walk reaches zero leaves — the empty
mapping, or one in which no book or chapter level value is itself a mapping —
makes the nested flattener fail with `EmptyFlattenResult` instead of
producing an empty table. -/
theorem C7_empty_nested_rejection (data : List (String × Json))
    (h : nestedLeafRecords data = []) :
    flatten_from_nested data = .error .emptyFlattenResult := by
  unfold flatten_from_nested nestedRecords
  rw [h]
  rfl

/-- Witness for C7 at the empty mapping input. -/
theorem C7_empty_nested_rejection_witness :
    flatten_from_nested [] = .error .emptyFlattenResult :=
  C7_empty_nested_rejection [] rfl

/-- C3: the shape detector dispatches exactly one flattener — a sequence root
enters the list path, a mapping root the nested path, and any other root
fails with `UnsupportedShape` reporting the root's runtime type. -/
theorem C3_shape_dispatch :
    (∀ xs : List Json, mainTransform (.arr xs) = listPath xs)
    ∧ (∀ kvs : List (String × Json), mainTransform (.obj kvs) = nestedPath kvs)
    ∧ (∀ j : Json, (∀ xs, j ≠ .arr xs) → (∀ kvs, j ≠ .obj kvs) →
        mainTransform j = .error (.unsupportedShape (pyTypeName j))) := by
  refine ⟨fun xs => rfl, fun kvs => rfl, ?_⟩
  intro j harr hobj
  cases j with
  | arr xs => exact absurd rfl (harr xs)
  | obj kvs => exact absurd rfl (hobj kvs)
  | str s => rfl
  | int n => rfl
  | bool b => rfl
  | null => rfl

/-- Witness for C3 at the root value `5`, which is neither a sequence nor a
mapping. -/
theorem C3_shape_dispatch_witness :
    mainTransform (.int 5) = .error (.unsupportedShape "<class 'int'>") :=
  C3_shape_dispatch.2.2 (.int 5) (fun _ h => Json.noConfusion h)
    (fun _ h => Json.noConfusion h)

/-- A well-formed one-record list-shaped input, used by witnesses. -/
def sampleListInput : List Record :=
  [[("book", Json.str "A"), ("chapter", Json.int 1), ("verse", Json.int 1),
    ("text", Json.str "x")]]

/-- C10: the empty list-shaped input fails with `MissingRequiredFields`
reporting all four canonical fields missing (and an empty observed-column
list), the whole program run fails the same way and writes nothing; more
generally the list path cannot emit a zero-row table, because a successful
list flatten keeps one row per input record and rejects the empty input. -/
theorem C10_empty_list_rejection :
    flatten_from_list [] =
      .error (.missingRequiredFields ["book", "chapter", "verse", "text"] [])
    ∧ mainTransform (.arr []) =
      .error (.missingRequiredFields ["book", "chapter", "verse", "text"] [])
    ∧ outputFileWritten (.arr []) = false
    ∧ (∀ (data : List Record) (df : DataFrame),
        flatten_from_list data = .ok df →
          df.rows.length = data.length ∧ data ≠ []) := by
  refine ⟨by decide, by decide, by decide, ?_⟩
  intro data df h
  unfold flatten_from_list at h
  by_cases hm : missingFields data ≠ []
  · rw [if_pos hm] at h
    exact absurd h (by simp)
  · rw [if_neg hm] at h
    have hdf : selectColumns ⟨renamedColumns data, (mkDataFrame data).rows⟩
        requiredList = df := by simpa using h
    constructor
    · rw [← hdf]
      simp [selectColumns, mkDataFrame]
    · intro hdata
      have hm' := not_not.mp hm
      rw [hdata] at hm'
      exact absurd hm' (by decide)

/-- Witness for C10's general part at a one-record input. -/
theorem C10_empty_list_rejection_witness :
    (⟨["book", "chapter", "verse", "text"],
      [[some (Json.str "A"), some (Json.int 1), some (Json.int 1),
        some (Json.str "x")]]⟩ : DataFrame).rows.length = sampleListInput.length
    ∧ sampleListInput ≠ [] :=
  C10_empty_list_rejection.2.2.2 sampleListInput _ (by decide)

theorem asRecords_map_obj : ∀ data : List Record,
    asRecords (data.map Json.obj) = some data := by
  intro data
  induction data with
  | nil => rfl
  | cons r rest ih => simp [asRecords, ih]

/-- A list-shaped input none of whose records carries any recognized alias
for `verse`, used by witnesses. -/
def sampleNoVerse : List Record :=
  [[("book", Json.str "A"), ("chapter", Json.int 1), ("text", Json.str "x")]]

/-- C5: the list flattener fails with `MissingRequiredFields` exactly when,
after alias resolution, some canonical field is absent from the collection's
observed columns; the failure carries both the missing fields and the columns
actually observed, the whole run fails the same way, and no output file is
produced; when nothing is missing the flatten succeeds. -/
theorem C5_missing_required_fields (data : List Record) :
    (missingFields data ≠ [] →
      flatten_from_list data =
        .error (.missingRequiredFields (missingFields data) (renamedColumns data))
      ∧ mainTransform (.arr (data.map Json.obj)) =
        .error (.missingRequiredFields (missingFields data) (renamedColumns data))
      ∧ outputFileWritten (.arr (data.map Json.obj)) = false)
    ∧ (missingFields data = [] →
      flatten_from_list data =
        .ok (selectColumns ⟨renamedColumns data, (mkDataFrame data).rows⟩
          requiredList)) := by
  constructor
  · intro hm
    have hf : flatten_from_list data =
        .error (.missingRequiredFields (missingFields data) (renamedColumns data)) := by
      unfold flatten_from_list
      rw [if_pos hm]
    have hmain : mainTransform (.arr (data.map Json.obj)) =
        .error (.missingRequiredFields (missingFields data) (renamedColumns data)) := by
      show listPath (data.map Json.obj) = _
      unfold listPath
      rw [asRecords_map_obj]
      simp only [hf]
    refine ⟨hf, hmain, ?_⟩
    unfold outputFileWritten
    rw [hmain]
  · intro hm
    unfold flatten_from_list
    rw [if_neg (fun hne => hne hm)]

/-- Witness for C5 at an input with no alias for `verse` anywhere. -/
theorem C5_missing_required_fields_witness :
    flatten_from_list sampleNoVerse =
      .error (.missingRequiredFields ["verse"] ["book", "chapter", "text"])
    ∧ mainTransform (.arr (sampleNoVerse.map Json.obj)) =
      .error (.missingRequiredFields ["verse"] ["book", "chapter", "text"])
    ∧ outputFileWritten (.arr (sampleNoVerse.map Json.obj)) = false := by
  have h := (C5_missing_required_fields sampleNoVerse).1 (by decide)
  exact ⟨h.1.trans (by decide), h.2.1.trans (by decide), h.2.2⟩

theorem charListLt_asymm : ∀ x y : List Char,
    charListLt x y = true → charListLt y x = false := by
  intro x
  induction x with
  | nil =>
    intro y h
    cases y with
    | nil => simp [charListLt] at h
    | cons b bs => simp [charListLt]
  | cons a as ih =>
    intro y h
    cases y with
    | nil => simp [charListLt] at h
    | cons b bs =>
      by_cases hab : a < b
      · have hba : ¬ b < a := lt_asymm hab
        simp [charListLt, hab, hba]
      · by_cases hba : b < a
        · simp [charListLt, hab, hba] at h
        · have h' : charListLt as bs = true := by
            simpa [charListLt, hab, hba] using h
          simp [charListLt, hab, hba, ih bs h']

theorem charListLt_conn : ∀ x y : List Char,
    charListLt x y = false → charListLt y x = false → x = y := by
  intro x
  induction x with
  | nil =>
    intro y h1 _
    cases y with
    | nil => rfl
    | cons b bs => simp [charListLt] at h1
  | cons a as ih =>
    intro y h1 h2
    cases y with
    | nil => simp [charListLt] at h2
    | cons b bs =>
      by_cases hab : a < b
      · simp [charListLt, hab] at h1
      · by_cases hba : b < a
        · simp [charListLt, hba] at h2
        · have heq : a = b := le_antisymm (le_of_not_lt hba) (le_of_not_lt hab)
          subst heq
          have h1' : charListLt as bs = false := by
            simpa [charListLt, lt_irrefl] using h1
          have h2' : charListLt bs as = false := by
            simpa [charListLt, lt_irrefl] using h2
          rw [ih bs h1' h2']

theorem charListLt_trans : ∀ x y z : List Char,
    charListLt x y = true → charListLt y z = true → charListLt x z = true := by
  intro x
  induction x with
  | nil =>
    intro y z h1 h2
    cases y with
    | nil => simp [charListLt] at h1
    | cons b bs =>
      cases z with
      | nil => simp [charListLt] at h2
      | cons c cs => simp [charListLt]
  | cons a as ih =>
    intro y z h1 h2
    cases y with
    | nil => simp [charListLt] at h1
    | cons b bs =>
      cases z with
      | nil => simp [charListLt] at h2
      | cons c cs =>
        by_cases hab : a < b
        · by_cases hbc : b < c
          · simp [charListLt, lt_trans hab hbc]
          · by_cases hcb : c < b
            · simp [charListLt, hbc, hcb] at h2
            · have heq : b = c := le_antisymm (le_of_not_lt hcb) (le_of_not_lt hbc)
              subst heq
              simp [charListLt, hab]
        · by_cases hba : b < a
          · simp [charListLt, hab, hba] at h1
          · have heq : a = b := le_antisymm (le_of_not_lt hba) (le_of_not_lt hab)
            subst heq
            have h1' : charListLt as bs = true := by
              simpa [charListLt, lt_irrefl] using h1
            by_cases hbc : a < c
            · simp [charListLt, hbc]
            · by_cases hcb : c < a
              · simp [charListLt, hbc, hcb] at h2
              · have heq2 : a = c := le_antisymm (le_of_not_lt hcb) (le_of_not_lt hbc)
                subst heq2
                have h2' : charListLt bs cs = true := by
                  simpa [charListLt, lt_irrefl] using h2
                simp [charListLt, lt_irrefl, ih bs cs h1' h2']

theorem charListLt_iff_lex : ∀ x y : List Char,
    charListLt x y = true ↔ List.Lex (· < ·) x y := by
  intro x
  induction x with
  | nil =>
    intro y
    cases y with
    | nil =>
      exact iff_of_false (by simp [charListLt]) (List.Lex.not_nil_right _ _)
    | cons b bs => exact iff_of_true (by simp [charListLt]) List.Lex.nil
  | cons a as ih =>
    intro y
    cases y with
    | nil =>
      exact iff_of_false (by simp [charListLt]) (List.Lex.not_nil_right _ _)
    | cons b bs =>
      by_cases hab : a < b
      · exact iff_of_true (by simp [charListLt, hab]) (List.Lex.rel hab)
      · by_cases hba : b < a
        · refine iff_of_false (by simp [charListLt, hab, hba]) ?_
          intro h
          cases h with
          | rel h' => exact hab h'
          | cons h' => exact lt_irrefl a hba
        · have heq : a = b := le_antisymm (le_of_not_lt hba) (le_of_not_lt hab)
          subst heq
          constructor
          · intro h
            exact List.Lex.cons ((ih bs).mp (by simpa [charListLt, lt_irrefl] using h))
          · intro h
            have : List.Lex (· < ·) as bs := by
              cases h with
              | rel h' => exact absurd h' (lt_irrefl a)
              | cons h' => exact h'
            simpa [charListLt, lt_irrefl] using (ih bs).mpr this

theorem strLtB_iff (a b : String) : strLtB a b = true ↔ a < b := by
  rw [String.lt_iff_toList_lt]
  exact charListLt_iff_lex a.data b.data

theorem ltOptStr_asymm (x y : Option String) (h : ltOptStr x y = true) :
    ltOptStr y x = false := by
  cases x with
  | none => simp [ltOptStr] at h
  | some a =>
    cases y with
    | none => simp [ltOptStr]
    | some b =>
      simp only [ltOptStr, strLtB] at h ⊢
      exact charListLt_asymm _ _ h

theorem ltOptStr_conn (x y : Option String) (h1 : ltOptStr x y = false)
    (h2 : ltOptStr y x = false) : x = y := by
  cases x with
  | none =>
    cases y with
    | none => rfl
    | some b => simp [ltOptStr] at h2
  | some a =>
    cases y with
    | none => simp [ltOptStr] at h1
    | some b =>
      simp only [ltOptStr, strLtB] at h1 h2
      have := charListLt_conn _ _ h1 h2
      exact congrArg some (String.toList_inj.mp this)

theorem ltOptStr_trans (x y z : Option String) (h1 : ltOptStr x y = true)
    (h2 : ltOptStr y z = true) : ltOptStr x z = true := by
  cases x with
  | none => simp [ltOptStr] at h1
  | some a =>
    cases y with
    | none => simp [ltOptStr] at h2
    | some b =>
      cases z with
      | none => simp [ltOptStr]
      | some c =>
        simp only [ltOptStr, strLtB] at h1 h2 ⊢
        exact charListLt_trans _ _ _ h1 h2

theorem ltOptInt_asymm (x y : Option Int) (h : ltOptInt x y = true) :
    ltOptInt y x = false := by
  cases x with
  | none => simp [ltOptInt] at h
  | some a =>
    cases y with
    | none => simp [ltOptInt]
    | some b =>
      simp only [ltOptInt, decide_eq_true_eq] at h
      simp only [ltOptInt, decide_eq_false_iff_not]
      exact lt_asymm h

theorem ltOptInt_conn (x y : Option Int) (h1 : ltOptInt x y = false)
    (h2 : ltOptInt y x = false) : x = y := by
  cases x with
  | none =>
    cases y with
    | none => rfl
    | some b => simp [ltOptInt] at h2
  | some a =>
    cases y with
    | none => simp [ltOptInt] at h1
    | some b =>
      simp only [ltOptInt, decide_eq_false_iff_not] at h1 h2
      exact congrArg some (le_antisymm (le_of_not_lt h2) (le_of_not_lt h1))

theorem ltOptInt_trans (x y z : Option Int) (h1 : ltOptInt x y = true)
    (h2 : ltOptInt y z = true) : ltOptInt x z = true := by
  cases x with
  | none => simp [ltOptInt] at h1
  | some a =>
    cases y with
    | none => simp [ltOptInt] at h2
    | some b =>
      cases z with
      | none => simp [ltOptInt]
      | some c =>
        simp only [ltOptInt, decide_eq_true_eq] at h1 h2 ⊢
        exact lt_trans h1 h2

theorem ltOptInt_negtrans (x y z : Option Int) (h1 : ltOptInt x y = false)
    (h2 : ltOptInt y z = false) : ltOptInt x z = false := by
  cases x with
  | none => simp [ltOptInt]
  | some a =>
    cases y with
    | none => simp [ltOptInt] at h1
    | some b =>
      cases z with
      | none => simp [ltOptInt] at h2
      | some c =>
        simp only [ltOptInt, decide_eq_false_iff_not] at h1 h2 ⊢
        intro hac
        exact h2 (lt_of_le_of_lt (le_of_not_lt h1) hac)

theorem rowLe_total : ∀ a b : Row4, rowLeP a b ∨ rowLeP b a := by
  intro a b
  unfold rowLeP rowLeB
  cases hAB : ltOptStr (bookOf a.book) (bookOf b.book) with
  | true => left; simp [hAB]
  | false =>
    cases hBA : ltOptStr (bookOf b.book) (bookOf a.book) with
    | true => right; simp [hBA]
    | false =>
      cases hPQ : ltOptInt (cellToInt a.chapter) (cellToInt b.chapter) with
      | true => left; simp [hAB, hBA, hPQ]
      | false =>
        cases hQP : ltOptInt (cellToInt b.chapter) (cellToInt a.chapter) with
        | true => right; simp [hAB, hBA, hQP]
        | false =>
          cases hVU : ltOptInt (cellToInt b.verse) (cellToInt a.verse) with
          | true =>
            right
            simp [hAB, hBA, hPQ, hQP, ltOptInt_asymm _ _ hVU]
          | false => left; simp [hAB, hBA, hPQ, hQP, hVU]

theorem rowLe_trans : ∀ a b c : Row4, rowLeP a b → rowLeP b c → rowLeP a c := by
  intro a b c h1 h2
  unfold rowLeP rowLeB at h1 h2 ⊢
  cases hAB : ltOptStr (bookOf a.book) (bookOf b.book) with
  | true =>
    cases hBC : ltOptStr (bookOf b.book) (bookOf c.book) with
    | true => simp [ltOptStr_trans _ _ _ hAB hBC]
    | false =>
      cases hCB : ltOptStr (bookOf c.book) (bookOf b.book) with
      | true => rw [hBC, hCB] at h2; simp at h2
      | false =>
        have heq := ltOptStr_conn _ _ hBC hCB
        rw [← heq]
        simp [hAB]
  | false =>
    cases hBA : ltOptStr (bookOf b.book) (bookOf a.book) with
    | true => rw [hAB, hBA] at h1; simp at h1
    | false =>
      have heqAB := ltOptStr_conn _ _ hAB hBA
      rw [← heqAB] at h2
      rw [hAB, hBA] at h1
      simp only [Bool.false_eq_true, if_false] at h1
      cases hAC : ltOptStr (bookOf a.book) (bookOf c.book) with
      | true => simp [hAC]
      | false =>
        cases hCA : ltOptStr (bookOf c.book) (bookOf a.book) with
        | true => rw [hAC, hCA] at h2; simp at h2
        | false =>
          rw [hAC, hCA] at h2
          simp only [Bool.false_eq_true, if_false] at h2
          simp only [hAC, hCA, Bool.false_eq_true, if_false]
          cases hPQ : ltOptInt (cellToInt a.chapter) (cellToInt b.chapter) with
          | true =>
            rw [hPQ] at h1
            cases hQR : ltOptInt (cellToInt b.chapter) (cellToInt c.chapter) with
            | true => simp [ltOptInt_trans _ _ _ hPQ hQR]
            | false =>
              cases hRQ : ltOptInt (cellToInt c.chapter) (cellToInt b.chapter) with
              | true => rw [hQR, hRQ] at h2; simp at h2
              | false =>
                have heq := ltOptInt_conn _ _ hQR hRQ
                rw [← heq]
                simp [hPQ]
          | false =>
            cases hQP : ltOptInt (cellToInt b.chapter) (cellToInt a.chapter) with
            | true => rw [hPQ, hQP] at h1; simp at h1
            | false =>
              have heqPQ := ltOptInt_conn _ _ hPQ hQP
              rw [← heqPQ] at h2
              rw [hPQ, hQP] at h1
              simp only [Bool.false_eq_true, if_false] at h1
              cases hPR : ltOptInt (cellToInt a.chapter) (cellToInt c.chapter) with
              | true => simp [hPR]
              | false =>
                cases hRP : ltOptInt (cellToInt c.chapter) (cellToInt a.chapter) with
                | true => rw [hPR, hRP] at h2; simp at h2
                | false =>
                  rw [hPR, hRP] at h2
                  simp only [Bool.false_eq_true, if_false] at h1 h2
                  simp only [hPR, hRP, Bool.false_eq_true, if_false]
                  simp only [Bool.not_eq_true'] at h1 h2 ⊢
                  exact ltOptInt_negtrans _ _ _ h2 h1

instance : IsTotal Row4 rowLeP := ⟨rowLe_total⟩

instance : IsTrans Row4 rowLeP := ⟨rowLe_trans⟩

theorem ltOptStr_spec (x y : Option String) (h : ltOptStr x y = true) :
    specNullLastLtStr x y := by
  cases x with
  | none => simp [ltOptStr] at h
  | some a =>
    cases y with
    | none => trivial
    | some b => exact (strLtB_iff a b).mp h

theorem ltOptInt_spec (x y : Option Int) (h : ltOptInt x y = true) :
    specNullLastLtInt x y := by
  cases x with
  | none => simp [ltOptInt] at h
  | some a =>
    cases y with
    | none => trivial
    | some b => simpa [ltOptInt] using h

theorem ltOptInt_le_spec (x y : Option Int) (h : ltOptInt y x = false) :
    specNullLastLeInt x y := by
  cases x with
  | none =>
    cases y with
    | none => exact Or.inr rfl
    | some w => simp [ltOptInt] at h
  | some u =>
    cases y with
    | none => exact Or.inl trivial
    | some w =>
      simp only [ltOptInt, decide_eq_false_iff_not] at h
      rcases lt_or_eq_of_le (le_of_not_lt h) with hlt | heq
      · exact Or.inl hlt
      · exact Or.inr (congrArg some heq)

theorem rowLe_spec (a b : Row4) (i j : Nat) (h : rowLeP a b) :
    specSortLe ⟨i, a.book, cellToInt a.chapter, cellToInt a.verse, a.text⟩
      ⟨j, b.book, cellToInt b.chapter, cellToInt b.verse, b.text⟩ := by
  unfold rowLeP rowLeB at h
  unfold specSortLe
  simp only []
  cases hAB : ltOptStr (bookOf a.book) (bookOf b.book) with
  | true => exact Or.inl (ltOptStr_spec _ _ hAB)
  | false =>
    rw [hAB] at h
    cases hBA : ltOptStr (bookOf b.book) (bookOf a.book) with
    | true => rw [hBA] at h; simp at h
    | false =>
      rw [hBA] at h
      simp only [Bool.false_eq_true, if_false] at h
      have heqB := ltOptStr_conn _ _ hAB hBA
      refine Or.inr ⟨heqB, ?_⟩
      cases hPQ : ltOptInt (cellToInt a.chapter) (cellToInt b.chapter) with
      | true => exact Or.inl (ltOptInt_spec _ _ hPQ)
      | false =>
        rw [hPQ] at h
        cases hQP : ltOptInt (cellToInt b.chapter) (cellToInt a.chapter) with
        | true => rw [hQP] at h; simp at h
        | false =>
          rw [hQP] at h
          simp only [Bool.false_eq_true, if_false] at h
          have heqC := ltOptInt_conn _ _ hPQ hQP
          refine Or.inr ⟨heqC, ?_⟩
          rw [Bool.not_eq_true'] at h
          exact ltOptInt_le_spec _ _ h

theorem mem_enumFrom_snd {α : Type} :
    ∀ (l : List α) (n : Nat) (p : Nat × α), p ∈ l.enumFrom n → p.2 ∈ l := by
  intro l
  induction l with
  | nil => intro n p h; simp [List.enumFrom] at h
  | cons x rest ih =>
    intro n p h
    rw [List.enumFrom] at h
    rcases List.mem_cons.mp h with rfl | h'
    · exact List.mem_cons_self x rest
    · exact List.mem_cons_of_mem x (ih (n + 1) p h')

theorem pairwise_enumFrom {α : Type} {R : α → α → Prop} {S : Nat × α → Nat × α → Prop}
    (h : ∀ p q : Nat × α, R p.2 q.2 → S p q) :
    ∀ (l : List α) (n : Nat), l.Pairwise R → (l.enumFrom n).Pairwise S := by
  intro l
  induction l with
  | nil => intro n _; simp [List.enumFrom]
  | cons x rest ih =>
    intro n hl
    rw [List.enumFrom]
    rcases List.pairwise_cons.mp hl with ⟨hx, hrest⟩
    refine List.pairwise_cons.mpr ⟨?_, ih (n + 1) hrest⟩
    intro q hq
    exact h (n, x) q (hx q.2 (mem_enumFrom_snd rest (n + 1) q hq))

theorem pairwise_outOfSorted {R : Row4 → Row4 → Prop} {S : OutRow → OutRow → Prop}
    (h : ∀ (i j : Nat) (a b : Row4), R a b →
      S ⟨i, a.book, cellToInt a.chapter, cellToInt a.verse, a.text⟩
        ⟨j, b.book, cellToInt b.chapter, cellToInt b.verse, b.text⟩)
    (l : List Row4) (hl : l.Pairwise R) : (outOfSorted l).Pairwise S := by
  unfold outOfSorted
  rw [List.pairwise_map]
  exact pairwise_enumFrom (fun p q hr => h p.1 q.1 p.2 q.2 hr) l 0 hl

/-- The canonical field tuple of an output row, forgetting the id. -/
def outFields (o : OutRow) : Cell × Option Int × Option Int × Cell :=
  (o.book, o.chapter, o.verse, o.text)

/-- The canonical field tuple of a coerced row, with chapter/verse read as
nullable integers. -/
def row4Fields (r : Row4) : Cell × Option Int × Option Int × Cell :=
  (r.book, cellToInt r.chapter, cellToInt r.verse, r.text)

theorem outOfSorted_map_outFields (l : List Row4) :
    (outOfSorted l).map outFields = l.map row4Fields := by
  unfold outOfSorted
  rw [List.map_map]
  show l.enum.map (fun p => row4Fields p.2) = l.map row4Fields
  rw [show (fun p : Nat × Row4 => row4Fields p.2) = row4Fields ∘ Prod.snd from rfl,
    ← List.map_map, List.enum_map_snd]

theorem outOfSorted_map_id (l : List Row4) :
    (outOfSorted l).map OutRow.id = List.range l.length := by
  unfold outOfSorted
  rw [List.map_map]
  show l.enum.map Prod.fst = List.range l.length
  exact List.enum_map_fst l

theorem exceptMapM_map {α β γ : Type} (f : β → Except PrepError γ) (h : α → β)
    (l : List α) :
    exceptMapM f (l.map h) = exceptMapM (fun x => f (h x)) l := by
  induction l with
  | nil => rfl
  | cons x rest ih => simp [exceptMapM, ih]

theorem coerceRowCells_ok (r : Row4)
    (h1 : ∃ x, coerceCell r.chapter = .ok x)
    (h2 : ∃ x, coerceCell r.verse = .ok x) :
    coerceRowCells requiredList [r.book, r.chapter, r.verse, r.text] =
      .ok [r.book, (coerceCellD r.chapter).map Json.int,
        (coerceCellD r.verse).map Json.int, r.text] := by
  obtain ⟨c, hc⟩ := h1
  obtain ⟨v, hv⟩ := h2
  have hcD : coerceCellD r.chapter = c := by simp [coerceCellD, hc]
  have hvD : coerceCellD r.verse = v := by simp [coerceCellD, hv]
  simp [coerceRowCells, requiredList, exceptMapM, coerceCellJ, hc, hv, hcD, hvD]

theorem normalizeDF_dfOfRows (rows : List Row4)
    (hb : ∀ r ∈ rows, bookCellOkB r.book = true)
    (hc : ∀ r ∈ rows, (∃ x, coerceCell r.chapter = .ok x) ∧
      (∃ x, coerceCell r.verse = .ok x)) :
    normalizeDF (dfOfRows rows) = .ok (normalizeTotal rows) := by
  have hmap : exceptMapM (coerceRowCells requiredList)
      (rows.map (fun r => [r.book, r.chapter, r.verse, r.text])) =
      .ok (rows.map (fun r => [r.book, (coerceCellD r.chapter).map Json.int,
        (coerceCellD r.verse).map Json.int, r.text])) := by
    rw [exceptMapM_map]
    exact exceptMapM_ok_of_forall _ _ rows
      (fun r hr => coerceRowCells_ok r (hc r hr).1 (hc r hr).2)
  have hrow4 : exceptMapM toRow4
      (rows.map (fun r => [r.book, (coerceCellD r.chapter).map Json.int,
        (coerceCellD r.verse).map Json.int, r.text])) =
      .ok (rows.map coerceRow4D) := by
    rw [exceptMapM_map]
    exact exceptMapM_ok_of_forall _ _ rows (fun r _ => rfl)
  have hall : (rows.map coerceRow4D).all (fun r => bookCellOkB r.book) = true := by
    rw [List.all_eq_true]
    intro r hr
    rcases List.mem_map.mp hr with ⟨s, hs, rfl⟩
    exact hb s hs
  unfold normalizeDF dfOfRows
  simp only []
  rw [if_pos (by decide : requiredList.count "chapter" = 1 ∧
    requiredList.count "verse" = 1)]
  rw [hmap]
  simp only [hrow4, hall, if_true]
  rfl

/-- Whether a fallible computation succeeded. -/
def exceptIsOk {α : Type} : Except PrepError α → Bool
  | .ok _ => true
  | .error _ => false

theorem exceptIsOk_iff {α : Type} (x : Except PrepError α) :
    exceptIsOk x = true ↔ ∃ y, x = .ok y := by
  cases x with
  | ok y => simp [exceptIsOk]
  | error e => simp [exceptIsOk]

/-- C2: on rows whose book cells are sortable and whose chapter/verse cells
coerce without a cast error, the normalizer succeeds and returns
`normalizeTotal`: a table totally ordered by book ascending (lexical text
comparison), then chapter, then verse ascending (numeric comparison with
null after all real values), whose id column is exactly `0..N-1` in final
sort position, and whose rows are a permutation of the coerced input rows.
The witness checks the spec's concrete example. -/
theorem C2_normalizer_sort_and_ids (rows : List Row4)
    (hb : ∀ r ∈ rows, bookCellOkB r.book = true)
    (hc : ∀ r ∈ rows, exceptIsOk (coerceCell r.chapter) = true ∧
      exceptIsOk (coerceCell r.verse) = true) :
    normalizeDF (dfOfRows rows) = .ok (normalizeTotal rows)
    ∧ List.Pairwise specSortLe (normalizeTotal rows)
    ∧ (normalizeTotal rows).map OutRow.id = List.range rows.length
    ∧ ((normalizeTotal rows).map outFields).Perm
        ((rows.map coerceRow4D).map row4Fields) := by
  have hc' : ∀ r ∈ rows, (∃ x, coerceCell r.chapter = .ok x) ∧
      (∃ x, coerceCell r.verse = .ok x) := fun r hr =>
    ⟨(exceptIsOk_iff _).mp (hc r hr).1, (exceptIsOk_iff _).mp (hc r hr).2⟩
  refine ⟨normalizeDF_dfOfRows rows hb hc', ?_, ?_, ?_⟩
  · have hs := List.sorted_insertionSort rowLeP (rows.map coerceRow4D)
    exact pairwise_outOfSorted (fun i j a b h => rowLe_spec a b i j h) _ hs
  · unfold normalizeTotal
    rw [outOfSorted_map_id]
    have hl : (List.insertionSort rowLeP (rows.map coerceRow4D)).length =
        rows.length := by
      rw [(List.perm_insertionSort rowLeP (rows.map coerceRow4D)).length_eq,
        List.length_map]
    rw [hl]
  · unfold normalizeTotal
    rw [outOfSorted_map_outFields]
    exact (List.perm_insertionSort rowLeP (rows.map coerceRow4D)).map row4Fields

/-- The spec's concrete unsorted example rows `[(B,2,1,x), (A,1,5,y),
(A,1,1,z)]`. -/
def sampleSortRows : List Row4 :=
  [⟨some (Json.str "B"), some (Json.int 2), some (Json.int 1), some (Json.str "x")⟩,
   ⟨some (Json.str "A"), some (Json.int 1), some (Json.int 5), some (Json.str "y")⟩,
   ⟨some (Json.str "A"), some (Json.int 1), some (Json.int 1), some (Json.str "z")⟩]

/-- Witness for C2: the example normalizes to exactly
`[(A,1,1,z), (A,1,5,y), (B,2,1,x)]` with ids `0, 1, 2`. -/
theorem C2_normalizer_sort_and_ids_witness :
    normalizeDF (dfOfRows sampleSortRows) =
      .ok [⟨0, some (Json.str "A"), some 1, some 1, some (Json.str "z")⟩,
           ⟨1, some (Json.str "A"), some 1, some 5, some (Json.str "y")⟩,
           ⟨2, some (Json.str "B"), some 2, some 1, some (Json.str "x")⟩] := by
  have h := C2_normalizer_sort_and_ids sampleSortRows (by decide) (by decide)
  exact h.1.trans (by decide)

theorem specNullLastLtStr_irrefl (x : Option String) : ¬ specNullLastLtStr x x := by
  cases x with
  | none => exact fun h => h
  | some s => exact lt_irrefl s

theorem specNullLastLtInt_irrefl (x : Option Int) : ¬ specNullLastLtInt x x := by
  cases x with
  | none => exact fun h => h
  | some n => exact lt_irrefl n

/-- C8: with the list path's lenient policy, a record whose chapter or verse
value does not parse as a number is not rejected: the normalizer still
succeeds, that cell becomes the null marker, the record is retained (the
output is a permutation of the coerced inputs), and within a book every
null-chapter row sorts after all rows with a real chapter (likewise for
verse within a book and chapter). -/
theorem C8_list_null_tolerance (rows : List Row4)
    (hb : ∀ r ∈ rows, bookCellOkB r.book = true)
    (hc : ∀ r ∈ rows, exceptIsOk (coerceCell r.chapter) = true ∧
      exceptIsOk (coerceCell r.verse) = true) :
    normalizeDF (dfOfRows rows) = .ok (normalizeTotal rows)
    ∧ (∀ s : String, pyNumParse s = .fail →
        coerceCell (some (.str s)) = .ok none)
    ∧ (∀ (r : Row4) (s : String), r.chapter = some (.str s) →
        pyNumParse s = .fail → (coerceRow4D r).chapter = none)
    ∧ ((normalizeTotal rows).map outFields).Perm
        ((rows.map coerceRow4D).map row4Fields)
    ∧ List.Pairwise (fun a b : OutRow => bookOf a.book = bookOf b.book →
        a.chapter = none → b.chapter = none) (normalizeTotal rows)
    ∧ List.Pairwise (fun a b : OutRow => bookOf a.book = bookOf b.book →
        a.chapter = b.chapter → a.verse = none → b.verse = none)
        (normalizeTotal rows) := by
  have hc' : ∀ r ∈ rows, (∃ x, coerceCell r.chapter = .ok x) ∧
      (∃ x, coerceCell r.verse = .ok x) := fun r hr =>
    ⟨(exceptIsOk_iff _).mp (hc r hr).1, (exceptIsOk_iff _).mp (hc r hr).2⟩
  have hsorted : List.Pairwise specSortLe (normalizeTotal rows) := by
    have hs := List.sorted_insertionSort rowLeP (rows.map coerceRow4D)
    exact pairwise_outOfSorted (fun i j a b h => rowLe_spec a b i j h) _ hs
  refine ⟨normalizeDF_dfOfRows rows hb hc', ?_, ?_, ?_, ?_, ?_⟩
  · intro s hs
    simp [coerceCell, hs]
  · intro r s hrs hfail
    simp [coerceRow4D, coerceCellD, coerceCell, hrs, hfail]
  · unfold normalizeTotal
    rw [outOfSorted_map_outFields]
    exact (List.perm_insertionSort rowLeP (rows.map coerceRow4D)).map row4Fields
  · refine hsorted.imp ?_
    intro a b h hbook hch
    rcases h with hlt | ⟨heq, h2⟩
    · rw [hbook] at hlt
      exact absurd hlt (specNullLastLtStr_irrefl _)
    · rcases h2 with hlt2 | ⟨heq2, _⟩
      · rw [hch] at hlt2
        exact absurd hlt2 (specNullLastLtInt_irrefl none)
      · rw [← heq2, hch]
  · refine hsorted.imp ?_
    intro a b h hbook hch hv
    rcases h with hlt | ⟨heq, h2⟩
    · rw [hbook] at hlt
      exact absurd hlt (specNullLastLtStr_irrefl _)
    · rcases h2 with hlt2 | ⟨heq2, hle⟩
      · rw [hch] at hlt2
        exact absurd hlt2 (specNullLastLtInt_irrefl _)
      · rcases hle with hlt3 | heq3
        · rw [hv] at hlt3
          exact absurd hlt3 (specNullLastLtInt_irrefl none)
        · rw [← heq3, hv]

/-- The spec's null-chapter example rows: `(A, "not-a-number", 1, x)` next to
`(A, 1, 1, y)`. -/
def sampleNullChapter : List Row4 :=
  [⟨some (Json.str "A"), some (Json.str "not-a-number"), some (Json.int 1),
    some (Json.str "x")⟩,
   ⟨some (Json.str "A"), some (Json.int 1), some (Json.int 1),
    some (Json.str "y")⟩]

/-- Witness for C8: the `"not-a-number"` chapter record is kept with a null
chapter and sorts after the record with chapter 1 in the same book. -/
theorem C8_list_null_tolerance_witness :
    normalizeDF (dfOfRows sampleNullChapter) =
      .ok [⟨0, some (Json.str "A"), some 1, some 1, some (Json.str "y")⟩,
           ⟨1, some (Json.str "A"), none, some 1, some (Json.str "x")⟩] := by
  have h := C8_list_null_tolerance sampleNullChapter (by decide) (by decide)
  exact h.1.trans (by decide)

/-- Counterexample to C9: the program performs no lower-bound check on
chapter or verse.  The nested input `{"B": {"0": {"0": "t"}}}` runs the whole
pipeline successfully and emits a row with chapter 0 and verse 0, so it is
not the case that every non-null chapter/verse in an output table is at
least 1. -/
theorem C9_lower_bound_counterexample : ¬ specChapterVerseLowerBound := by
  intro h
  have hrun : mainTransform (.obj [("B", .obj [("0", .obj [("0", .str "t")])])]) =
      .ok [⟨0, some (Json.str "B"), some 0, some 0, some (Json.str "t")⟩] := by
    decide
  have hmem : (⟨0, some (Json.str "B"), some 0, some 0, some (Json.str "t")⟩ :
      OutRow) ∈
      [(⟨0, some (Json.str "B"), some 0, some 0, some (Json.str "t")⟩ : OutRow)] :=
    List.mem_singleton.mpr rfl
  have h0 := (h _ _ hrun _ hmem).1 0 rfl
  exact absurd h0 (by decide)

/-- C9 as amended: output chapter and verse are nullable integers carried
over unchanged from numeric coercion of the source cells — a cell is null in
the output exactly when coercion produced no integer — and no lower bound is
enforced, so values below 1 (as in the witness, chapter 0 and verse 0) pass
through to the output. -/
theorem C9_chapter_verse_integer_amended (rows : List Row4)
    (hb : ∀ r ∈ rows, bookCellOkB r.book = true)
    (hc : ∀ r ∈ rows, exceptIsOk (coerceCell r.chapter) = true ∧
      exceptIsOk (coerceCell r.verse) = true) :
    normalizeDF (dfOfRows rows) = .ok (normalizeTotal rows)
    ∧ ((normalizeTotal rows).map outFields).Perm
        ((rows.map coerceRow4D).map row4Fields)
    ∧ (∀ r : Row4, row4Fields (coerceRow4D r) =
        (r.book, coerceCellD r.chapter, coerceCellD r.verse, r.text))
    ∧ (∀ c : Cell, coerceCellD c = none ↔
        ¬ ∃ n : Int, coerceCell c = .ok (some n)) := by
  have hc' : ∀ r ∈ rows, (∃ x, coerceCell r.chapter = .ok x) ∧
      (∃ x, coerceCell r.verse = .ok x) := fun r hr =>
    ⟨(exceptIsOk_iff _).mp (hc r hr).1, (exceptIsOk_iff _).mp (hc r hr).2⟩
  refine ⟨normalizeDF_dfOfRows rows hb hc', ?_, ?_, ?_⟩
  · unfold normalizeTotal
    rw [outOfSorted_map_outFields]
    exact (List.perm_insertionSort rowLeP (rows.map coerceRow4D)).map row4Fields
  · intro r
    unfold row4Fields coerceRow4D
    cases hch : coerceCellD r.chapter with
    | none => cases hv : coerceCellD r.verse with
      | none => simp [cellToInt]
      | some n => simp [cellToInt]
    | some m => cases hv : coerceCellD r.verse with
      | none => simp [cellToInt]
      | some n => simp [cellToInt]
  · intro c
    unfold coerceCellD
    cases hcc : coerceCell c with
    | error e => simp [hcc]
    | ok o =>
      cases o with
      | none => simp
      | some n => simp

/-- Witness for the amended C9: a row with chapter 0 and verse 0 normalizes
successfully and keeps both zeros (below the claimed bound of 1). -/
theorem C9_chapter_verse_integer_amended_witness :
    normalizeDF (dfOfRows
        [⟨some (Json.str "B"), some (Json.int 0), some (Json.int 0),
          some (Json.str "t")⟩]) =
      .ok [⟨0, some (Json.str "B"), some 0, some 0, some (Json.str "t")⟩] := by
  have h := C9_chapter_verse_integer_amended
    [⟨some (Json.str "B"), some (Json.int 0), some (Json.int 0),
      some (Json.str "t")⟩] (by decide) (by decide)
  exact h.1.trans (by decide)

/-- Replace a field name throughout the column namespace. -/
def substKey (a c k : String) : String := if k = a then c else k

/-- The same input record with every use of field name `a` replaced by `c`
(in place, keeping position and value). -/
def substKeyRecord (a c : String) (r : Record) : Record :=
  r.map (fun kv => if kv.1 = a then (c, kv.2) else kv)

theorem substKey_inj (a c e k : String) (he : e ≠ c) (hk : k ≠ c) :
    substKey a c e = substKey a c k ↔ e = k := by
  unfold substKey
  by_cases h1 : e = a
  · by_cases h2 : k = a
    · rw [if_pos h1, if_pos h2, h1, h2]
      simp
    · rw [if_pos h1, if_neg h2]
      exact iff_of_false (fun h => hk h.symm) (fun h => h2 (h.symm.trans h1))
  · by_cases h2 : k = a
    · rw [if_neg h1, if_pos h2]
      exact iff_of_false (fun h => he h) (fun h => h1 (h.trans h2))
    · rw [if_neg h1, if_neg h2]

theorem recordKeys_subst (a c : String) (r : Record) :
    recordKeys (substKeyRecord a c r) = (recordKeys r).map (substKey a c) := by
  unfold recordKeys substKeyRecord substKey
  rw [List.map_map, List.map_map]
  apply List.map_congr_left
  intro kv _
  by_cases h : kv.1 = a
  · simp [h]
  · simp [h]

theorem dfCell_cons (kv : String × Json) (rest : Record) (k : String) :
    dfCell (kv :: rest) k = if kv.1 = k then some kv.2 else dfCell rest k := by
  by_cases h : kv.1 = k
  · rw [if_pos h]
    unfold dfCell
    rw [List.find?_cons_of_pos _ (by simp [h])]
    rfl
  · rw [if_neg h]
    unfold dfCell
    rw [List.find?_cons_of_neg _ (by simp [h])]

theorem dfCell_subst (a c k : String) (hk : k ≠ c) :
    ∀ r : Record, (∀ kv ∈ r, kv.1 ≠ c) →
      dfCell (substKeyRecord a c r) (substKey a c k) = dfCell r k := by
  intro r
  induction r with
  | nil => intro _; rfl
  | cons kv rest ih =>
    intro hr
    have hkv : kv.1 ≠ c := hr kv (List.mem_cons_self _ _)
    have hrest := ih (fun kv' h' => hr kv' (List.mem_cons_of_mem _ h'))
    show dfCell ((if kv.1 = a then (c, kv.2) else kv) :: substKeyRecord a c rest)
      (substKey a c k) = dfCell (kv :: rest) k
    rw [dfCell_cons, dfCell_cons]
    by_cases h1 : kv.1 = a
    · rw [if_pos h1]
      by_cases h2 : k = a
      · have hs : substKey a c k = c := by simp [substKey, h2]
        rw [hs]
        rw [if_pos (show ((c, kv.2) : String × Json).1 = c from rfl),
          if_pos (h1.trans h2.symm)]
      · have hs : substKey a c k = k := by simp [substKey, h2]
        rw [hs] at hrest ⊢
        rw [if_neg (show ¬(((c, kv.2) : String × Json).1 = k) from
            fun h => hk h.symm),
          if_neg (fun h : kv.1 = k => h2 (h.symm.trans h1))]
        exact hrest
    · rw [if_neg h1]
      by_cases h2 : k = a
      · have hs : substKey a c k = c := by simp [substKey, h2]
        rw [hs] at hrest ⊢
        rw [if_neg hkv, if_neg (fun h : kv.1 = k => h1 (h.trans h2))]
        exact hrest
      · have hs : substKey a c k = k := by simp [substKey, h2]
        rw [hs] at hrest ⊢
        by_cases h3 : kv.1 = k
        · rw [if_pos h3, if_pos h3]
        · rw [if_neg h3, if_neg h3]
          exact hrest

theorem dfColumnsAux_mem : ∀ (data : List Record) (acc : List String) (k : String),
    k ∈ dfColumnsAux data acc → k ∈ acc ∨ ∃ r ∈ data, k ∈ recordKeys r := by
  intro data
  induction data with
  | nil => intro acc k h; exact Or.inl h
  | cons r rest ih =>
    intro acc k h
    rw [dfColumnsAux] at h
    rcases ih _ k h with hacc | ⟨r', hr', hk'⟩
    · rcases List.mem_append.mp hacc with h1 | h2
      · exact Or.inl h1
      · exact Or.inr ⟨r, List.mem_cons_self _ _, (List.mem_filter.mp h2).1⟩
    · exact Or.inr ⟨r', List.mem_cons_of_mem _ hr', hk'⟩

theorem contains_map_subst (a c k : String) (hk : k ≠ c) :
    ∀ acc : List String, c ∉ acc →
      (acc.map (substKey a c)).contains (substKey a c k) = acc.contains k := by
  intro acc
  induction acc with
  | nil => intro _; rfl
  | cons e rest ih =>
    intro hacc
    have he : e ≠ c := fun h => hacc (h ▸ List.mem_cons_self _ _)
    have hrest := ih (fun h => hacc (List.mem_cons_of_mem _ h))
    simp only [List.map_cons, List.contains_cons, hrest]
    by_cases h : k = e
    · rw [h]
      simp
    · have hne : substKey a c k ≠ substKey a c e :=
        fun heq => h ((substKey_inj a c k e hk he).mp heq)
      rw [beq_eq_false_iff_ne.mpr hne, beq_eq_false_iff_ne.mpr h]

theorem dfColumnsAux_subst (a c : String) :
    ∀ (data : List Record) (acc : List String),
      (∀ r ∈ data, ∀ kv ∈ r, kv.1 ≠ c) → c ∉ acc →
      dfColumnsAux (data.map (substKeyRecord a c)) (acc.map (substKey a c)) =
        (dfColumnsAux data acc).map (substKey a c) := by
  intro data
  induction data with
  | nil => intro acc _ _; rfl
  | cons r rest ih =>
    intro acc hfresh hacc
    have hr : ∀ kv ∈ r, kv.1 ≠ c := hfresh r (List.mem_cons_self _ _)
    have hbatch : (recordKeys (substKeyRecord a c r)).filter
        (fun k => !(acc.map (substKey a c)).contains k) =
        ((recordKeys r).filter (fun k => !acc.contains k)).map (substKey a c) := by
      rw [recordKeys_subst, List.filter_map]
      congr 1
      apply List.filter_congr
      intro k hkmem
      have hkc : k ≠ c := by
        rcases List.mem_map.mp hkmem with ⟨kv, hkv, rfl⟩
        exact hr kv hkv
      show (!(acc.map (substKey a c)).contains (substKey a c k)) =
        (!acc.contains k)
      rw [contains_map_subst a c k hkc acc hacc]
    show dfColumnsAux (rest.map (substKeyRecord a c))
        (acc.map (substKey a c) ++ (recordKeys (substKeyRecord a c r)).filter
          (fun k => !(acc.map (substKey a c)).contains k)) =
      (dfColumnsAux rest
        (acc ++ (recordKeys r).filter (fun k => !acc.contains k))).map
        (substKey a c)
    rw [hbatch, ← List.map_append]
    apply ih
    · exact fun r' h' => hfresh r' (List.mem_cons_of_mem _ h')
    · intro hmem
      rcases List.mem_append.mp hmem with h1 | h2
      · exact hacc h1
      · rcases List.mem_filter.mp h2 with ⟨hkeys, _⟩
        rcases List.mem_map.mp hkeys with ⟨kv, hkv, hkv1⟩
        exact hr kv hkv hkv1

theorem dfColumns_subst (a c : String) (data : List Record)
    (hfresh : ∀ r ∈ data, ∀ kv ∈ r, kv.1 ≠ c) :
    dfColumns (data.map (substKeyRecord a c)) =
      (dfColumns data).map (substKey a c) := by
  have h := dfColumnsAux_subst a c data [] hfresh (by simp)
  simpa [dfColumns] using h

theorem dfColumns_ne_of_fresh (c : String) (data : List Record)
    (hfresh : ∀ r ∈ data, ∀ kv ∈ r, kv.1 ≠ c) :
    ∀ k ∈ dfColumns data, k ≠ c := by
  intro k hk
  rcases dfColumnsAux_mem data [] k hk with h1 | ⟨r, hr, hkeys⟩
  · simp at h1
  · rcases List.mem_map.mp hkeys with ⟨kv, hkv, hkv1⟩
    exact hkv1 ▸ hfresh r hr kv hkv

theorem mkDataFrame_subst_rows (a c : String) (data : List Record)
    (hfresh : ∀ r ∈ data, ∀ kv ∈ r, kv.1 ≠ c) :
    (mkDataFrame (data.map (substKeyRecord a c))).rows =
      (mkDataFrame data).rows := by
  unfold mkDataFrame
  rw [dfColumns_subst a c data hfresh, List.map_map]
  apply List.map_congr_left
  intro r hrmem
  show ((dfColumns data).map (substKey a c)).map
      (dfCell (substKeyRecord a c r)) = (dfColumns data).map (dfCell r)
  rw [List.map_map]
  apply List.map_congr_left
  intro k hk
  exact dfCell_subst a c k (dfColumns_ne_of_fresh c data hfresh k hk) r
    (hfresh r hrmem)

theorem alias_pair_facts (a c : String) (hac : (a, c) ∈ rename_map) :
    applyRename a = c ∧ applyRename c = c := by
  have hall : ∀ p ∈ rename_map, applyRename p.1 = p.2 ∧ applyRename p.2 = p.2 := by
    decide
  exact hall (a, c) hac

theorem renamedColumns_subst (a c : String) (data : List Record)
    (hac : (a, c) ∈ rename_map)
    (hfresh : ∀ r ∈ data, ∀ kv ∈ r, kv.1 ≠ c) :
    renamedColumns (data.map (substKeyRecord a c)) = renamedColumns data := by
  obtain ⟨h1, h2⟩ := alias_pair_facts a c hac
  unfold renamedColumns
  rw [dfColumns_subst a c data hfresh, List.map_map]
  apply List.map_congr_left
  intro k _
  show applyRename (substKey a c k) = applyRename k
  by_cases h : k = a
  · rw [h]
    have hs : substKey a c a = c := by simp [substKey]
    rw [hs, h2, h1]
  · have hs : substKey a c k = k := by simp [substKey, h]
    rw [hs]

/-- C4: the list flattener's alias handling is the fixed, case-sensitive
table `rename_map`: each listed alias renames to its canonical field and
canonical names are left unchanged; consequently an input that uses a
recognized alias `a` in place of the canonical name `c` (which therefore
appears nowhere in the input) flattens to exactly the same canonical table
as the same input spelled with `c`. -/
theorem C4_alias_equivalence (a c : String) (data : List Record)
    (hac : (a, c) ∈ rename_map)
    (hfresh : ∀ r ∈ data, ∀ kv ∈ r, kv.1 ≠ c) :
    flatten_from_list (data.map (substKeyRecord a c)) = flatten_from_list data
    ∧ (applyRename "Book" = "book" ∧ applyRename "book_name" = "book" ∧
       applyRename "bookName" = "book" ∧ applyRename "Chapter" = "chapter" ∧
       applyRename "chapterNumber" = "chapter" ∧ applyRename "Verse" = "verse" ∧
       applyRename "verseNumber" = "verse" ∧ applyRename "Text" = "text" ∧
       applyRename "verseText" = "text" ∧ applyRename "content" = "text" ∧
       applyRename "book" = "book" ∧ applyRename "chapter" = "chapter" ∧
       applyRename "verse" = "verse" ∧ applyRename "text" = "text") := by
  refine ⟨?_, by decide⟩
  have hcols := renamedColumns_subst a c data hac hfresh
  have hrows := mkDataFrame_subst_rows a c data hfresh
  unfold flatten_from_list missingFields
  rw [hcols, hrows]

/-- A one-record input using the alias `Book` for the book column. -/
def sampleAlias : List Record :=
  [[("Book", Json.str "John"), ("chapter", Json.int 3), ("verse", Json.int 16),
    ("text", Json.str "For God so loved...")]]

/-- Witness for C4: renaming `Book` to `book` in the sample input leaves the
flattened table unchanged. -/
theorem C4_alias_equivalence_witness :
    flatten_from_list (sampleAlias.map (substKeyRecord "Book" "book")) =
      flatten_from_list sampleAlias :=
  (C4_alias_equivalence "Book" "book" sampleAlias (by decide) (by decide)).1
